import Mathlib

/-!
Verification of the form-validation core of `src/script.js` (class
`FormValidator` and its page-level wiring) through a shallow embedding.

Strings are modelled as Lean `String`s; where JavaScript semantics matter
(UTF-16 `length`, the `\s` whitespace class, `parseInt`, regexes) the
embedding spells the JavaScript behaviour out explicitly.  The two regexes
appearing in `checkRule` are hand-compiled into structurally faithful
backtracking matchers over `List Char`.
-/

namespace LeafNote

/-! Section: JavaScript string primitives -/

/-- The character class matched by `\s` in a JavaScript regex (and trimmed
by `String.prototype.trim`). -/
def jsWhitespace (c : Char) : Bool :=
  c == ' ' || c == '\t' || c == '\n' || c == '\r' || c == '\x0b' || c == '\x0c' ||
  c == '\u00A0' || c == '\u1680' || ('\u2000' ≤ c && c ≤ '\u200A') ||
  c == '\u2028' || c == '\u2029' || c == '\u202F' || c == '\u205F' ||
  c == '\u3000' || c == '\uFEFF'

/-- Model of `value.trim()` : strip leading and trailing `\s` characters. -/
def jsTrim (cs : List Char) : List Char :=
  ((cs.dropWhile jsWhitespace).reverse.dropWhile jsWhitespace).reverse

/-- JavaScript `string.length` counts UTF-16 code units: astral code points
(≥ U+10000) count twice. -/
def jsLength (cs : List Char) : Nat :=
  cs.foldl (fun a c => a + (if c.toNat < 0x10000 then 1 else 2)) 0

/-- Model of `a.startsWith(b)` : `b` is a prefix of `a` (argument order: pattern,
then subject). -/
def prefixOf : List Char → List Char → Bool
  | [], _ => true
  | _ :: _, [] => false
  | a :: as, b :: bs => a == b && prefixOf as bs

/-- The second component of `rule.split(':')`: the characters strictly
between the first colon and the following colon (or the end); `none` when
the string has no colon at all (so that `split(':')[1]` is `undefined`). -/
def splitSecond (cs : List Char) : Option (List Char) :=
  match cs.dropWhile (fun c => !(c == ':')) with
  | [] => none
  | _ :: rest => some (rest.takeWhile (fun c => !(c == ':')))

/-- Longest digit prefix of a character list, as a number; `none` when the
list does not start with a digit (`parseInt` yields `NaN` there). -/
def parseDigitsJS (cs : List Char) : Option Nat :=
  match cs.takeWhile Char.isDigit with
  | [] => none
  | ds => some (ds.foldl (fun a c => 10 * a + (c.toNat - 48)) 0)

/-- Model of `parseInt(s, 10)` : skip leading whitespace, an optional sign, then the
longest digit prefix; `none` models `NaN`. -/
def parseIntJS (cs : List Char) : Option Int :=
  match cs.dropWhile jsWhitespace with
  | [] => none
  | c :: rest =>
    if c == '-' then (parseDigitsJS rest).map (fun n => -(n : Int))
    else if c == '+' then (parseDigitsJS rest).map (fun n => (n : Int))
    else (parseDigitsJS (c :: rest)).map (fun n => (n : Int))

/-! Section: The two regexes of `checkRule`, hand-compiled

`emailRegex = /^[^\s@]+@[^\s@]+\.[^\s@]+$/` and
`phoneRegex = /^[\d\s\-\+\(\)]{7,}$/`. -/

/-- The character class `[^\s@]`. -/
def okCh (c : Char) : Bool := !(jsWhitespace c) && !(c == '@')

/-- Matches `[^\s@]+$` : non-empty, all characters in the class. -/
def tailSeg : List Char → Bool
  | [] => false
  | c :: rest => okCh c && rest.all okCh

/-- Matches `[^\s@]*\.[^\s@]+$` : some class characters, a dot, then a
non-empty class segment (the backtracking choice is the Boolean `||`). -/
def findDot : List Char → Bool
  | [] => false
  | c :: rest => (c == '.' && tailSeg rest) || (okCh c && findDot rest)

/-- Matches `[^\s@]+\.[^\s@]+$` (the part after the `@`). -/
def afterAt : List Char → Bool
  | [] => false
  | c :: rest => okCh c && findDot rest

/-- Matches `[^\s@]*@[^\s@]+\.[^\s@]+$` (scanning for the `@`). -/
def atPart : List Char → Bool
  | [] => false
  | c :: rest => (c == '@' && afterAt rest) || (okCh c && atPart rest)

/-- Model of `emailRegex.test(value)` : full-match of `^[^\s@]+@[^\s@]+\.[^\s@]+$`. -/
def emailTest : List Char → Bool
  | [] => false
  | c :: rest => okCh c && atPart rest

/-- The character class `[\d\s\-\+\(\)]`. -/
def phoneChar (c : Char) : Bool :=
  c.isDigit || jsWhitespace c || c == '-' || c == '+' || c == '(' || c == ')'

/-- Matches `[\d\s\-\+\(\)]{n,}$` : at least `n` more class characters,
then any number of further class characters. -/
def phoneMatch : Nat → List Char → Bool
  | 0, [] => true
  | _ + 1, [] => false
  | n, c :: rest => phoneChar c && phoneMatch (n - 1) rest

/-! Section: `FormValidator.checkRule` -/

/-- Model of `FormValidator.checkRule(value, rule)` from `src/script.js` lines
200-217: the `required` / `minLength` / `email` / `phone` branches, with a
permissive `true` default.  The `minLength` branch mirrors
`parseInt(rule.split(':')[1], 10)` followed by `value.length >= length`
(any comparison against `NaN` is `false`). -/
def checkRule (value rule : String) : Bool :=
  if rule == "required" then decide (0 < jsLength (jsTrim value.data))
  else if prefixOf "minLength".data rule.data then
    match (splitSecond rule.data).bind parseIntJS with
    | none => false
    | some k => decide (k ≤ (jsLength value.data : Int))
  else if rule == "email" then emailTest value.data
  else if rule == "phone" then phoneMatch 7 value.data || value == ""
  else true

/-! Section: Field descriptors and per-field DOM state -/

/-- The four field names of `this.fields`, in declaration order. -/
inductive FieldName where
  | email
  | name
  | phone
  | message
deriving DecidableEq, Repr

/-- A field descriptor: `selector`, ordered `rules`, shared `message`. -/
structure FieldDescriptor where
  selector : String
  rules : List String
  message : String
deriving DecidableEq, Repr

/-- The `this.fields` table from the `FormValidator` constructor
(`src/script.js` lines 137-158). -/
def fields : FieldName → FieldDescriptor
  | .email => ⟨"input[type=\"email\"]", ["required", "email"],
      "Please enter a valid email address"⟩
  | .name => ⟨"input[name=\"name\"]", ["required", "minLength:2"],
      "Name must be at least 2 characters"⟩
  | .phone => ⟨"input[type=\"tel\"]", ["phone"],
      "Please enter a valid phone number"⟩
  | .message => ⟨"textarea[name=\"message\"]", ["required", "minLength:10"],
      "Message must be at least 10 characters"⟩

/-- Declaration order of the descriptor table (`Object.values(this.fields)`
iterates in insertion order). -/
def fieldOrder : List FieldName := [.email, .name, .phone, .message]

/-- Live DOM state of one field element together with its container:
the element value, whether `field-error` is in its class list, and the
texts of the `.error-message` nodes of `element.parentElement`, in child
order. -/
structure FieldState where
  value : String
  hasErrorClass : Bool
  errorNodes : List String
deriving DecidableEq, Repr

/-- Model of `FormValidator.showError(element, message)` (lines 219-225): add the
`field-error` class; reuse the first existing `.error-message` node if
present (retexting it — `appendChild` then moves it to the end of the
container) or create a fresh one, and append it. -/
def showError (fs : FieldState) (msg : String) : FieldState :=
  { fs with
    hasErrorClass := true
    errorNodes :=
      match fs.errorNodes with
      | [] => [msg]
      | _ :: rest => rest ++ [msg] }

/-- Model of `FormValidator.clearError(element)` (lines 227-233): remove the
`field-error` class; remove the first `.error-message` node if present. -/
def clearError (fs : FieldState) : FieldState :=
  { fs with hasErrorClass := false, errorNodes := fs.errorNodes.tail }

/-! Section: Rule evaluation and field validation -/

/-- The rule loop of `validateField` (lines 181-186): evaluate the rules
left to right, stopping at the first failure.  Returns the overall result
together with the list of rules actually passed to `checkRule`, in call
order (the instrumentation that makes the short-circuit observable). -/
def evalRules (value : String) : List String → Bool × List String
  | [] => (true, [])
  | r :: rs =>
    if checkRule value r then
      let t := evalRules value rs
      (t.1, r :: t.2)
    else (false, [r])

/-- Model of `FormValidator.validateField(element)` (lines 177-189) for an element
governed by descriptor `fn` (the `findRules` identity match; a `null`
result returns `true` with no side effect and is not modelled because the
listeners only fire on descriptor-bound elements).  Returns the Boolean
result, the updated field/container state, and the evaluated-rule trace. -/
def validateField (fn : FieldName) (fs : FieldState) : Bool × FieldState × List String :=
  let t := evalRules fs.value (fields fn).rules
  if t.1 then (true, clearError fs, t.2)
  else (false, showError fs (fields fn).message, t.2)

/-! Section: The bound form and whole-form submission -/

/-- The form's four possible field elements (one per descriptor selector);
`none` models a selector with no matching element. -/
structure FormModel where
  email : Option FieldState
  name : Option FieldState
  phone : Option FieldState
  message : Option FieldState
deriving DecidableEq, Repr

/-- Model of `this.form.querySelector(this.fields[fn].selector)` on the model. -/
def getField (fm : FormModel) : FieldName → Option FieldState
  | .email => fm.email
  | .name => fm.name
  | .phone => fm.phone
  | .message => fm.message

/-- Write back the live state of one field element. -/
def setField (fm : FormModel) : FieldName → FieldState → FormModel
  | .email, fs => { fm with email := some fs }
  | .name, fs => { fm with name := some fs }
  | .phone, fs => { fm with phone := some fs }
  | .message, fs => { fm with message := some fs }

/-- Model of `form.reset()` : every present field value reverts to its default
(empty) value; classes and error nodes are untouched. -/
def resetForm (fm : FormModel) : FormModel :=
  ⟨fm.email.map (fun fs => { fs with value := "" }),
   fm.name.map (fun fs => { fs with value := "" }),
   fm.phone.map (fun fs => { fs with value := "" }),
   fm.message.map (fun fs => { fs with value := "" })⟩

/-- The `Object.values(this.fields).forEach` loop of `handleSubmit`
(lines 247-253): validate each declared field whose element is present,
accumulating the conjunction; returns the updated form, the overall flag,
and the list of field names actually validated, in order. -/
def validateAll : FormModel → List FieldName → FormModel × Bool × List FieldName
  | fm, [] => (fm, true, [])
  | fm, fn :: rest =>
    match getField fm fn with
    | none => validateAll fm rest
    | some fs =>
      let r := validateField fn fs
      let t := validateAll (setField fm fn r.2.1) rest
      (t.1, r.1 && t.2.1, fn :: t.2.2)

/-- The banner animation set at creation (`slideIn 0.3s ease-out`). -/
def bannerSlideIn : String := "slideIn 0.3s ease-out"

/-- The banner animation set when the removal transition begins. -/
def bannerSlideOut : String := "slideOut 0.3s ease-out"

/-- The two timer callbacks chained by `submitForm`. -/
inductive TimerCb where
  | resetAndSlideOut
  | removeBanner
deriving DecidableEq, Repr

/-- The page-level state the validator mutates: the bound form's fields,
the success banners currently inserted before the form's first child
(front of list = first child), the pending timers (absolute fire time on
the simulated clock), and the current time. -/
structure SimState where
  form : FormModel
  banners : List String
  timers : List (Nat × TimerCb)
  now : Nat
deriving DecidableEq, Repr

/-- Model of `FormValidator.submitForm()` (lines 260-282): insert the success
banner as the form's first child and schedule the reset callback 2000 ms
out. -/
def submitForm (st : SimState) : SimState :=
  { st with
    banners := bannerSlideIn :: st.banners
    timers := st.timers ++ [(st.now + 2000, TimerCb.resetAndSlideOut)] }

/-- Run one timer callback: the outer `setTimeout` body resets the form,
switches the banner it inserted (the form's first child in a single
submission) to the slide-out animation, and schedules its removal 300 ms
later; the inner one removes that banner node. -/
def runCb (st : SimState) : TimerCb → SimState
  | .resetAndSlideOut =>
    { st with
      form := resetForm st.form
      banners :=
        match st.banners with
        | [] => []
        | _ :: rest => bannerSlideOut :: rest
      timers := st.timers ++ [(st.now + 300, TimerCb.removeBanner)] }
  | .removeBanner => { st with banners := st.banners.tail }

/-- Select the earliest pending timer (first in insertion order among
minima, as the host event loop does) and the remaining queue. -/
def pickMin : List (Nat × TimerCb) → Option ((Nat × TimerCb) × List (Nat × TimerCb))
  | [] => none
  | t :: ts =>
    match pickMin ts with
    | none => some (t, [])
    | some (m, rest) => if t.1 ≤ m.1 then some (t, ts) else some (m, t :: rest)

/-- Advance the simulated clock to `target`, firing every timer due by
then in time order.  `fuel` bounds the number of callbacks run (two
suffice for one submission). -/
def advance : Nat → Nat → SimState → SimState
  | 0, target, st => { st with now := target }
  | fuel + 1, target, st =>
    match pickMin st.timers with
    | none => { st with now := target }
    | some (t, rest) =>
      if t.1 ≤ target then
        advance fuel target (runCb { st with now := t.1, timers := rest } t.2)
      else { st with now := target }

/-- A form `submit` event. -/
structure Event where
  defaultPrevented : Bool
deriving DecidableEq, Repr

/-- Model of `FormValidator.handleSubmit(e)` (lines 244-258): prevent the default
unconditionally, validate every present field, and run `submitForm` iff
all of them validated.  Returns the event, the new page state, the list of
fields validated, and whether the success sequence ran. -/
def handleSubmit (e : Event) (st : SimState) : Event × SimState × List FieldName × Bool :=
  let e2 : Event := { e with defaultPrevented := true }
  let r := validateAll st.form fieldOrder
  let st2 := { st with form := r.1 }
  if r.2.1 then (e2, submitForm st2, r.2.2, true)
  else (e2, st2, r.2.2, false)

/-- The `input` listener attached by `init` (line 169):
`() => this.clearError(element)` — no rule is evaluated. -/
def inputEvent (fm : FormModel) (fn : FieldName) : FormModel :=
  match getField fm fn with
  | none => fm
  | some fs => setField fm fn (clearError fs)

/-! Section: Page-level construction (`new FormValidator(...)` chain) -/

/-- A form element as far as the three lookup expressions can see it. -/
structure FormElem where
  nameAttr : Option String
  classes : List String
deriving DecidableEq, Repr

/-- A document, reduced to its forms in document order. -/
structure Doc where
  forms : List FormElem
deriving DecidableEq, Repr

/-- Model of `document.querySelector(sel)` for the three selectors the script uses. -/
def querySelectorForm (d : Doc) (sel : String) : Option FormElem :=
  if sel == "form[name=\"contact\"]" then
    d.forms.find? (fun f => f.nameAttr == some "contact")
  else if sel == "form.contact-form" then
    d.forms.find? (fun f => f.classes.contains "contact-form")
  else if sel == "form" then d.forms.head?
  else none

/-- The constructed `FormValidator` object: `this.form` is the lookup
result; a failed lookup returns early, leaving the instance inert. -/
structure FormValidator where
  form : Option FormElem
deriving DecidableEq, Repr

/-- Model of `new FormValidator(formSelector)` (constructor lines 132-161). -/
def newFormValidator (d : Doc) (sel : String) : FormValidator :=
  ⟨querySelectorForm d sel⟩

/-- JavaScript truthiness of a `new` expression result: the object a
constructor produces is always truthy, whatever the constructor body did. -/
def validatorTruthy (_ : FormValidator) : Bool := true

/-- JavaScript `a || b` on two constructed validators. -/
def jsOrV (a b : FormValidator) : FormValidator :=
  if validatorTruthy a then a else b

/-- The page-level binding (lines 286-288):
`new FormValidator('form[name="contact"]') ||
 new FormValidator('form.contact-form') || new FormValidator('form')`. -/
def contactForm (d : Doc) : FormValidator :=
  jsOrV (jsOrV (newFormValidator d "form[name=\"contact\"]")
               (newFormValidator d "form.contact-form"))
        (newFormValidator d "form")

/-! Section: General list helpers -/

theorem takeWhile_all_eq {α : Type} {p : α → Bool} :
    ∀ l : List α, l.all p = true → l.takeWhile p = l := by
  intro l h
  induction l with
  | nil => rfl
  | cons c rest ih =>
    simp only [List.all_cons, Bool.and_eq_true] at h
    simp [List.takeWhile_cons, h.1, ih h.2]

theorem dropWhile_all_not {α : Type} {p : α → Bool} :
    ∀ l : List α, l.all (fun c => !(p c)) = true → l.dropWhile p = l := by
  intro l h
  induction l with
  | nil => rfl
  | cons c rest _ =>
    simp only [List.all_cons, Bool.and_eq_true, Bool.not_eq_true'] at h
    simp [List.dropWhile_cons, h.1]

theorem prefixOf_append : ∀ p rest : List Char, prefixOf p (p ++ rest) = true := by
  intro p rest
  induction p with
  | nil => rfl
  | cons a as ih => simp [prefixOf, ih]

/-! Section: Characterizing the email matcher -/

theorem tailSeg_iff (l : List Char) :
    tailSeg l = true ↔ l ≠ [] ∧ l.all okCh = true := by
  cases l with
  | nil => simp [tailSeg]
  | cons c rest => simp [tailSeg, List.all_cons]

theorem findDot_iff : ∀ l : List Char, findDot l = true ↔
    ∃ A B, l = A ++ '.' :: B ∧ A.all okCh = true ∧ B ≠ [] ∧ B.all okCh = true := by
  intro l
  induction l with
  | nil =>
    constructor
    · intro h; simp [findDot] at h
    · rintro ⟨A, B, hAB, -, -, -⟩
      exact absurd hAB (by cases A <;> simp)
  | cons c rest ih =>
    constructor
    · intro h
      simp only [findDot, Bool.or_eq_true, Bool.and_eq_true] at h
      rcases h with ⟨hc, hts⟩ | ⟨hok, hfd⟩
      · rcases (tailSeg_iff rest).mp hts with ⟨hne, hall⟩
        exact ⟨[], rest, by simp [beq_iff_eq.mp hc], rfl, hne, hall⟩
      · rcases ih.mp hfd with ⟨A, B, hAB, hA, hBne, hB⟩
        exact ⟨c :: A, B, by simp [hAB], by simp [List.all_cons, hok, hA], hBne, hB⟩
    · rintro ⟨A, B, hAB, hA, hBne, hB⟩
      cases A with
      | nil =>
        simp only [List.nil_append, List.cons.injEq] at hAB
        obtain ⟨hc, hrest⟩ := hAB
        simp only [findDot, Bool.or_eq_true, Bool.and_eq_true]
        exact Or.inl ⟨by simp [hc], (tailSeg_iff rest).mpr ⟨by simp [hrest, hBne], by simp [hrest, hB]⟩⟩
      | cons a A2 =>
        simp only [List.cons_append, List.cons.injEq] at hAB
        obtain ⟨hc, hrest⟩ := hAB
        simp only [List.all_cons, Bool.and_eq_true] at hA
        simp only [findDot, Bool.or_eq_true, Bool.and_eq_true]
        exact Or.inr ⟨by rw [hc]; exact hA.1, ih.mpr ⟨A2, B, hrest, hA.2, hBne, hB⟩⟩

theorem afterAt_iff : ∀ l : List Char, afterAt l = true ↔
    ∃ A B, l = A ++ '.' :: B ∧ A ≠ [] ∧ A.all okCh = true ∧ B ≠ [] ∧ B.all okCh = true := by
  intro l
  cases l with
  | nil =>
    constructor
    · intro h; simp [afterAt] at h
    · rintro ⟨A, B, hAB, -, -, -, -⟩
      exact absurd hAB (by cases A <;> simp)
  | cons c rest =>
    constructor
    · intro h
      simp only [afterAt, Bool.and_eq_true] at h
      rcases (findDot_iff rest).mp h.2 with ⟨A, B, hAB, hA, hBne, hB⟩
      exact ⟨c :: A, B, by simp [hAB], by simp, by simp [List.all_cons, h.1, hA], hBne, hB⟩
    · rintro ⟨A, B, hAB, hAne, hA, hBne, hB⟩
      cases A with
      | nil => exact absurd rfl hAne
      | cons a A2 =>
        simp only [List.cons_append, List.cons.injEq] at hAB
        obtain ⟨hc, hrest⟩ := hAB
        simp only [List.all_cons, Bool.and_eq_true] at hA
        simp only [afterAt, Bool.and_eq_true]
        exact ⟨by rw [hc]; exact hA.1, (findDot_iff rest).mpr ⟨A2, B, hrest, hA.2, hBne, hB⟩⟩

theorem atPart_iff : ∀ l : List Char, atPart l = true ↔
    ∃ L R, l = L ++ '@' :: R ∧ L.all okCh = true ∧ afterAt R = true := by
  intro l
  induction l with
  | nil =>
    constructor
    · intro h; simp [atPart] at h
    · rintro ⟨L, R, hLR, -, -⟩
      exact absurd hLR (by cases L <;> simp)
  | cons c rest ih =>
    constructor
    · intro h
      simp only [atPart, Bool.or_eq_true, Bool.and_eq_true] at h
      rcases h with ⟨hc, haft⟩ | ⟨hok, hat⟩
      · exact ⟨[], rest, by simp [beq_iff_eq.mp hc], rfl, haft⟩
      · rcases ih.mp hat with ⟨L, R, hLR, hL, haft⟩
        exact ⟨c :: L, R, by simp [hLR], by simp [List.all_cons, hok, hL], haft⟩
    · rintro ⟨L, R, hLR, hL, haft⟩
      cases L with
      | nil =>
        simp only [List.nil_append, List.cons.injEq] at hLR
        obtain ⟨hc, hrest⟩ := hLR
        simp only [atPart, Bool.or_eq_true, Bool.and_eq_true]
        exact Or.inl ⟨by simp [hc], by rw [hrest]; exact haft⟩
      | cons a L2 =>
        simp only [List.cons_append, List.cons.injEq] at hLR
        obtain ⟨hc, hrest⟩ := hLR
        simp only [List.all_cons, Bool.and_eq_true] at hL
        simp only [atPart, Bool.or_eq_true, Bool.and_eq_true]
        exact Or.inr ⟨by rw [hc]; exact hL.1, ih.mpr ⟨L2, R, hrest, hL.2, haft⟩⟩

theorem emailTest_iff : ∀ l : List Char, emailTest l = true ↔
    ∃ L R, l = L ++ '@' :: R ∧ L ≠ [] ∧ L.all okCh = true ∧ afterAt R = true := by
  intro l
  cases l with
  | nil =>
    constructor
    · intro h; simp [emailTest] at h
    · rintro ⟨L, R, hLR, -, -, -⟩
      exact absurd hLR (by cases L <;> simp)
  | cons c rest =>
    constructor
    · intro h
      simp only [emailTest, Bool.and_eq_true] at h
      rcases (atPart_iff rest).mp h.2 with ⟨L, R, hLR, hL, haft⟩
      exact ⟨c :: L, R, by simp [hLR], by simp, by simp [List.all_cons, h.1, hL], haft⟩
    · rintro ⟨L, R, hLR, hLne, hL, haft⟩
      cases L with
      | nil => exact absurd rfl hLne
      | cons a L2 =>
        simp only [List.cons_append, List.cons.injEq] at hLR
        obtain ⟨hc, hrest⟩ := hLR
        simp only [List.all_cons, Bool.and_eq_true] at hL
        simp only [emailTest, Bool.and_eq_true]
        exact ⟨by rw [hc]; exact hL.1, (atPart_iff rest).mpr ⟨L2, R, hrest, hL.2, haft⟩⟩

/-- A direct Boolean transcription of claim C4's wording, used only to
exhibit the divergence: the value contains exactly one `@`, at least one
non-whitespace character on each side of the `@`, and at least one `.`
after the `@` with non-whitespace on both sides of that dot (the character
left of a dot placed immediately after the `@` is the `@` itself, which is
not whitespace). -/
def emailSpecClaim (s : String) : Bool :=
  let cs := s.data
  (cs.count '@' == 1) &&
  (let before := cs.takeWhile (fun c => !(c == '@'))
   let after := (cs.dropWhile (fun c => !(c == '@'))).tail
   (before.any (fun c => !(jsWhitespace c))) &&
   (after.any (fun c => !(jsWhitespace c))) &&
   ((List.range after.length).any (fun j =>
      (after.getD j ' ' == '.') &&
      ((j == 0) || !(jsWhitespace (after.getD (j - 1) ' '))) &&
      (decide (j + 1 < after.length) && !(jsWhitespace (after.getD (j + 1) ' '))))))

/-- Claim C4 (counterexample): the value `"a b@c.d"` satisfies the
claim's stated pass condition — exactly one `@`, a non-whitespace
character on each side of it, and a dot after the `@` flanked by
non-whitespace — yet `checkRule` rejects it, because the regex
`^[^\s@]+@[^\s@]+\.[^\s@]+$` forbids whitespace anywhere in the value. -/
theorem c4_email_counterexample :
    emailSpecClaim "a b@c.d" = true ∧ checkRule "a b@c.d" "email" = false := by
  constructor <;> rfl

/-- Claim C4 (amended): `checkRule(value, "email")` passes iff the value
splits as `L ++ "@" ++ A ++ "." ++ B` with `L`, `A`, `B` non-empty and
free of whitespace and of `@` (so whitespace anywhere fails, the lone `@`
needs a character before it, and some dot after the `@` is neither
immediately after it nor final). -/
theorem c4_email_amended (value : String) :
    checkRule value "email" = true ↔
    ∃ L A B : List Char,
      value.data = L ++ '@' :: (A ++ '.' :: B) ∧
      L ≠ [] ∧ A ≠ [] ∧ B ≠ [] ∧
      L.all okCh = true ∧ A.all okCh = true ∧ B.all okCh = true := by
  have h : checkRule value "email" = emailTest value.data := rfl
  rw [h, emailTest_iff]
  constructor
  · rintro ⟨L, R, hLR, hLne, hLall, haft⟩
    rcases (afterAt_iff R).mp haft with ⟨A, B, hR, hAne, hAall, hBne, hBall⟩
    exact ⟨L, A, B, by rw [hLR, hR], hLne, hAne, hBne, hLall, hAall, hBall⟩
  · rintro ⟨L, A, B, hd, hLne, hAne, hBne, hLall, hAall, hBall⟩
    exact ⟨L, A ++ '.' :: B, hd, hLne, hLall,
      (afterAt_iff _).mpr ⟨A, B, rfl, hAne, hAall, hBne, hBall⟩⟩

/-! Section: The phone rule -/

theorem phoneMatch_eq : ∀ (l : List Char) (n : Nat),
    phoneMatch n l = (l.all phoneChar && decide (n ≤ l.length)) := by
  intro l
  induction l with
  | nil => intro n; cases n <;> simp [phoneMatch]
  | cons c rest ih =>
    intro n
    cases n with
    | zero => simp [phoneMatch, ih 0]
    | succ m =>
      have : phoneMatch (m + 1) (c :: rest) = (phoneChar c && phoneMatch m rest) := rfl
      rw [this, ih m]
      simp [List.all_cons, Bool.and_assoc, Nat.succ_le_succ_iff]

/-- Claim C5: `checkRule(value, "phone")` passes iff the value is empty,
or consists only of digits, whitespace, hyphens, plus signs and
parentheses and has at least 7 characters. -/
theorem c5_phone_rule (value : String) :
    checkRule value "phone" = true ↔
    value = "" ∨ (value.data.all phoneChar = true ∧ 7 ≤ value.data.length) := by
  have h : checkRule value "phone" = (phoneMatch 7 value.data || value == "") := rfl
  rw [h, phoneMatch_eq]
  simp only [Bool.or_eq_true, Bool.and_eq_true, beq_iff_eq, decide_eq_true_eq]
  tauto

/-! Section: Decimal numerals, for quantifying over `minLength:N` rules -/

/-- The base-10 digits of `n`, least significant first. -/
def natDigitsRev (n : Nat) : List Nat :=
  if h : n < 10 then [n]
  else (n % 10) :: natDigitsRev (n / 10)
decreasing_by exact Nat.div_lt_self (by omega) (by omega)

/-- The standard decimal numeral for `n` (most significant digit first). -/
def natToDecimal (n : Nat) : String :=
  ⟨(natDigitsRev n).reverse.map (fun d => Char.ofNat (48 + d))⟩

theorem natDigitsRev_lt (n : Nat) : ∀ d ∈ natDigitsRev n, d < 10 := by
  induction n using Nat.strong_induction_on with
  | _ n ih =>
    rw [natDigitsRev]
    split
    · intro d hd
      simp only [List.mem_singleton] at hd
      omega
    · intro d hd
      simp only [List.mem_cons] at hd
      rcases hd with h | h
      · omega
      · exact ih (n / 10) (Nat.div_lt_self (by omega) (by omega)) d h

theorem natDigitsRev_ne_nil (n : Nat) : natDigitsRev n ≠ [] := by
  rw [natDigitsRev]
  split <;> simp

theorem digitCharFacts (d : Nat) (hd : d < 10) :
    (Char.ofNat (48 + d)).isDigit = true ∧
    jsWhitespace (Char.ofNat (48 + d)) = false ∧
    ((Char.ofNat (48 + d)) == ':') = false ∧
    ((Char.ofNat (48 + d)) == '-') = false ∧
    ((Char.ofNat (48 + d)) == '+') = false ∧
    (Char.ofNat (48 + d)).toNat - 48 = d := by
  interval_cases d <;> exact (by decide)

theorem fold_natDigitsRev (n : Nat) :
    ((natDigitsRev n).reverse.map (fun d => Char.ofNat (48 + d))).foldl
      (fun a c => 10 * a + (c.toNat - 48)) 0 = n := by
  induction n using Nat.strong_induction_on with
  | _ n ih =>
    rw [natDigitsRev]
    split
    · rename_i h
      simp only [List.reverse_singleton, List.map_cons, List.map_nil, List.foldl_cons,
        List.foldl_nil]
      rw [(digitCharFacts n h).2.2.2.2.2]
      omega
    · rename_i h
      rw [List.reverse_cons, List.map_append, List.foldl_append]
      simp only [List.map_cons, List.map_nil, List.foldl_cons, List.foldl_nil]
      rw [ih (n / 10) (Nat.div_lt_self (by omega) (by omega))]
      rw [(digitCharFacts (n % 10) (by omega)).2.2.2.2.2]
      omega

/-- Every character of a decimal numeral is a digit character, hence not
whitespace, not a colon, and not a sign. -/
theorem natToDecimal_chars (n : Nat) :
    ∀ c ∈ (natToDecimal n).data,
      c.isDigit = true ∧ jsWhitespace c = false ∧ (c == ':') = false ∧
      (c == '-') = false ∧ (c == '+') = false := by
  intro c hc
  simp only [natToDecimal, List.mem_map, List.mem_reverse] at hc
  rcases hc with ⟨d, hd, rfl⟩
  have h10 := natDigitsRev_lt n d hd
  have h := digitCharFacts d h10
  exact ⟨h.1, h.2.1, h.2.2.1, h.2.2.2.1, h.2.2.2.2.1⟩

theorem natToDecimal_ne_nil (n : Nat) : (natToDecimal n).data ≠ [] := by
  simp only [natToDecimal]
  intro h
  rcases List.map_eq_nil_iff.mp h with h2
  exact natDigitsRev_ne_nil n (by simpa using h2)

theorem parseIntJS_natToDecimal (n : Nat) :
    parseIntJS (natToDecimal n).data = some (n : Int) := by
  have hchars := natToDecimal_chars n
  have hnws : (natToDecimal n).data.all (fun c => !(jsWhitespace c)) = true := by
    rw [List.all_eq_true]
    intro c hc
    simp [(hchars c hc).2.1]
  have hdig : (natToDecimal n).data.all Char.isDigit = true := by
    rw [List.all_eq_true]
    intro c hc
    exact (hchars c hc).1
  have hfold := fold_natDigitsRev n
  have hdd : ((natDigitsRev n).reverse.map (fun d => Char.ofNat (48 + d))) =
      (natToDecimal n).data := rfl
  rw [hdd] at hfold
  rcases hl : (natToDecimal n).data with _ | ⟨c, rest⟩
  · exact absurd hl (natToDecimal_ne_nil n)
  · have hc := hchars c (by rw [hl]; exact List.mem_cons_self c rest)
    rw [hl] at hnws hdig hfold
    rw [parseIntJS, dropWhile_all_not _ hnws]
    simp only []
    rw [if_neg (by rw [hc.2.2.2.1]; simp), if_neg (by rw [hc.2.2.2.2]; simp)]
    rw [parseDigitsJS, takeWhile_all_eq _ hdig]
    simp only []
    rw [hfold]
    simp

/-- Claim C6: for every string `value` and every natural number `N`,
`checkRule(value, "minLength:N")` passes iff the untrimmed length of
`value` (in UTF-16 code units, as JavaScript counts `string.length`) is at
least `N`. -/
theorem c6_minLength_rule (value : String) (N : Nat) :
    checkRule value ("minLength:" ++ natToDecimal N) = decide (N ≤ jsLength value.data) := by
  have hdata : ("minLength:" ++ natToDecimal N).data =
      "minLength:".data ++ (natToDecimal N).data := String.data_append _ _
  have hne : (("minLength:" ++ natToDecimal N) == "required") = false := by
    rw [beq_eq_false_iff_ne]
    intro h
    have h2 := congrArg String.data h
    rw [hdata] at h2
    simp at h2
  have hpre : prefixOf "minLength".data ("minLength:" ++ natToDecimal N).data = true := by
    rw [hdata]
    have h1 : "minLength:".data = "minLength".data ++ [':'] := rfl
    rw [h1, List.append_assoc]
    exact prefixOf_append _ _
  have hsplit : splitSecond ("minLength:" ++ natToDecimal N).data = some (natToDecimal N).data := by
    rw [hdata]
    have h1 : ("minLength:".data ++ (natToDecimal N).data).dropWhile (fun c => !(c == ':')) =
        ':' :: (natToDecimal N).data := rfl
    rw [splitSecond, h1]
    have h2 : (natToDecimal N).data.all (fun c => !(c == ':')) = true := by
      rw [List.all_eq_true]
      intro c hc
      simp [(natToDecimal_chars N c hc).2.2.1]
    simp only []
    rw [takeWhile_all_eq _ h2]
  rw [checkRule, if_neg (by simp [hne]), if_pos hpre, hsplit]
  simp only [Option.some_bind, parseIntJS_natToDecimal N]
  rw [decide_eq_decide]
  exact Int.ofNat_le

/-! Section: The permissive default (claim C7) -/

/-- A rule specifier of the exact form `minLength:N` for a decimal
numeral `N`: the prefix `minLength:` followed by one or more digits. -/
def minLengthForm (rule : String) : Bool :=
  prefixOf "minLength:".data rule.data &&
  (let ds := rule.data.drop 10
   !ds.isEmpty && ds.all Char.isDigit)

/-- Claim C7 (counterexample): the rule `"minLength:xyz"` is none of
`required`, `email`, `phone` and is not of the form `minLength:N`, yet
`checkRule` returns `false` for it (for the value `"hello"`, among
others): `parseInt("xyz", 10)` is `NaN` and the `>=` comparison against
`NaN` fails, so the permissive default is not reached. -/
theorem c7_default_counterexample :
    minLengthForm "minLength:xyz" = false ∧
    "minLength:xyz" ≠ "required" ∧
    "minLength:xyz" ≠ "email" ∧
    "minLength:xyz" ≠ "phone" ∧
    checkRule "hello" "minLength:xyz" = false := by
  refine ⟨rfl, by decide, by decide, by decide, rfl⟩

/-- Claim C7 (amended): `checkRule` returns `true` for every rule
specifier that is not `required`, not `email`, not `phone`, and does not
begin with `minLength` (a rule beginning with `minLength` but carrying no
parseable numeral after the colon returns `false` instead of `true`).
`checkRule` is a total function, so no `(value, rule)` pair throws. -/
theorem c7_default_amended (value rule : String)
    (h1 : rule ≠ "required")
    (h2 : prefixOf "minLength".data rule.data = false)
    (h3 : rule ≠ "email")
    (h4 : rule ≠ "phone") :
    checkRule value rule = true := by
  rw [checkRule, if_neg (by simp [beq_eq_false_iff_ne.mpr h1]),
    if_neg (by simp [h2]), if_neg (by simp [beq_eq_false_iff_ne.mpr h3]),
    if_neg (by simp [beq_eq_false_iff_ne.mpr h4])]

/-- Witness for C7's amended theorem at the concrete rule `"maxLength"`. -/
theorem c7_default_amended_witness : checkRule "" "maxLength" = true :=
  c7_default_amended "" "maxLength" (by decide) rfl (by decide) (by decide)

/-- Grounding check for the decimal renderer used in claim C6. -/
theorem natToDecimal_ten : natToDecimal 10 = "10" := by
  rw [natToDecimal]
  rw [natDigitsRev]
  norm_num
  rw [natDigitsRev]
  norm_num

/-! Section: Field access lemmas -/

theorem getField_setField_same (fm : FormModel) (fn : FieldName) (fs : FieldState) :
    getField (setField fm fn fs) fn = some fs := by
  cases fn <;> rfl

theorem getField_setField_ne (fm : FormModel) (fn fn2 : FieldName) (fs : FieldState)
    (h : fn2 ≠ fn) : getField (setField fm fn fs) fn2 = getField fm fn2 := by
  cases fn <;> cases fn2 <;> first | rfl | exact absurd rfl h

theorem isSome_setField (fm : FormModel) (fn fn2 : FieldName) (fs : FieldState)
    (h : (getField fm fn).isSome = true) :
    (getField (setField fm fn fs) fn2).isSome = (getField fm fn2).isSome := by
  by_cases he : fn2 = fn
  · subst he
    rw [getField_setField_same, h]
    rfl
  · rw [getField_setField_ne _ _ _ _ he]

/-! Section: Rule-loop lemmas (claim C2) -/

theorem evalRules_all_pass (value : String) : ∀ rules : List String,
    (∀ r ∈ rules, checkRule value r = true) → evalRules value rules = (true, rules) := by
  intro rules h
  induction rules with
  | nil => rfl
  | cons r rs ih =>
    have hr := h r (List.mem_cons_self r rs)
    simp [evalRules, hr, ih (fun x hx => h x (List.mem_cons_of_mem r hx))]

theorem evalRules_first_fail (value : String) : ∀ (rules : List String) (i : Nat),
    i < rules.length →
    (∀ j, j < i → checkRule value (rules.getD j "") = true) →
    checkRule value (rules.getD i "") = false →
    evalRules value rules = (false, rules.take (i + 1)) := by
  intro rules
  induction rules with
  | nil => intro i hi; exact absurd hi (by simp)
  | cons r rs ih =>
    intro i hi hpass hfail
    cases i with
    | zero =>
      simp only [List.getD_cons_zero] at hfail
      simp [evalRules, hfail]
    | succ m =>
      have hr : checkRule value r = true := by
        have := hpass 0 (by omega)
        simpa using this
      have hrec := ih m (by simpa using hi)
        (fun j hj => by simpa using hpass (j + 1) (by omega))
        (by simpa using hfail)
      simp [evalRules, hr, hrec]

/-- Claim C2: for a field element governed by descriptor `fn`,
`validateField` evaluates the rules in declared order; if every rule
passes it clears the error marker, returns `true`, and has evaluated the
whole rule list; on the first failing rule it marks the field with the
descriptor's single shared message, returns `false`, and has evaluated
exactly the rules up to and including the failing one (so no later rule
runs). -/
theorem c2_validateField (fn : FieldName) (fs : FieldState) :
    ((∀ r ∈ (fields fn).rules, checkRule fs.value r = true) →
      validateField fn fs = (true, clearError fs, (fields fn).rules)) ∧
    (∀ i, i < (fields fn).rules.length →
      (∀ j, j < i → checkRule fs.value ((fields fn).rules.getD j "") = true) →
      checkRule fs.value ((fields fn).rules.getD i "") = false →
      validateField fn fs = (false, showError fs (fields fn).message,
        (fields fn).rules.take (i + 1))) := by
  constructor
  · intro h
    have he := evalRules_all_pass fs.value (fields fn).rules h
    simp [validateField, he]
  · intro i hi hpass hfail
    have he := evalRules_first_fail fs.value (fields fn).rules i hi hpass hfail
    simp [validateField, he]

/-- Witness for C2 at the `message` field with input `""` and rules
`[required, minLength:10]`: the shared message is shown once and the
evaluated-rule trace is `["required"]` alone — `minLength:10` is never
evaluated. -/
theorem c2_validateField_witness :
    validateField .message ⟨"", false, []⟩ =
      (false, ⟨"", true, ["Message must be at least 10 characters"]⟩, ["required"]) ∧
    validateField .message ⟨"hello there world", true, ["old"]⟩ =
      (true, ⟨"hello there world", false, []⟩, ["required", "minLength:10"]) := by
  constructor
  · exact (c2_validateField .message ⟨"", false, []⟩).2 0 (by decide)
      (fun j hj => absurd hj (Nat.not_lt_zero j)) (by decide)
  · exact (c2_validateField .message ⟨"hello there world", true, ["old"]⟩).1 (by decide)

/-! Section: Error-marking idempotence (claim C8) -/

/-- Claim C8: from any program-reachable container state (at most one
error-message node), marking twice with the same message equals marking
once and leaves exactly one error-message node carrying that message;
clearing twice equals clearing once and leaves zero error-message nodes
(the second clear is a safe no-op). -/
theorem c8_error_idempotent (fs : FieldState) (msg : String)
    (h : fs.errorNodes.length ≤ 1) :
    showError (showError fs msg) msg = showError fs msg ∧
    (showError fs msg).errorNodes = [msg] ∧
    clearError (clearError fs) = clearError fs ∧
    (clearError fs).errorNodes = [] := by
  rcases fs with ⟨v, b, nodes⟩
  rcases nodes with _ | ⟨n, rest⟩
  · simp [showError, clearError]
  · rcases rest with _ | ⟨m, r2⟩
    · simp [showError, clearError]
    · exfalso
      simp at h

/-- Witness for C8 on a container already showing a different message. -/
theorem c8_error_idempotent_witness :
    showError (showError ⟨"x", true, ["old"]⟩ "new") "new" = showError ⟨"x", true, ["old"]⟩ "new" ∧
    (showError ⟨"x", true, ["old"]⟩ "new").errorNodes = ["new"] ∧
    clearError (clearError ⟨"x", true, ["old"]⟩) = clearError ⟨"x", true, ["old"]⟩ ∧
    (clearError ⟨"x", true, ["old"]⟩).errorNodes = [] :=
  c8_error_idempotent ⟨"x", true, ["old"]⟩ "new" (by decide)

/-! Section: The input listener (claim C9) -/

/-- Claim C9: the `input` listener is exactly `clearError` — it evaluates
no rules; after it runs the field carries no error marker (class removed,
error-message node gone) while the value, possibly still invalid, is
untouched. -/
theorem c9_input_clears (fm : FormModel) (fn : FieldName) (fs : FieldState)
    (hfs : getField fm fn = some fs) (hlen : fs.errorNodes.length ≤ 1) :
    inputEvent fm fn = setField fm fn (clearError fs) ∧
    ∃ fs2, getField (inputEvent fm fn) fn = some fs2 ∧
      fs2.hasErrorClass = false ∧ fs2.errorNodes = [] ∧ fs2.value = fs.value := by
  have h1 : inputEvent fm fn = setField fm fn (clearError fs) := by
    rw [inputEvent, hfs]
  refine ⟨h1, clearError fs, ?_, rfl, ?_, rfl⟩
  · rw [h1, getField_setField_same]
  · rcases fs with ⟨v, b, nodes⟩
    rcases nodes with _ | ⟨n, rest⟩
    · rfl
    · rcases rest with _ | ⟨m, r2⟩
      · rfl
      · exfalso
        simp at hlen

/-- Witness for C9: an errored `message` field whose value `""` still
fails its `required` rule nevertheless shows no error marker after the
input event. -/
theorem c9_input_clears_witness :
    checkRule "" "required" = false ∧
    ∃ fs2,
      getField (inputEvent
        ⟨none, none, none, some ⟨"", true, ["Message must be at least 10 characters"]⟩⟩
        .message) .message = some fs2 ∧
      fs2.hasErrorClass = false ∧ fs2.errorNodes = [] := by
  refine ⟨by decide, ?_⟩
  rcases (c9_input_clears
      ⟨none, none, none, some ⟨"", true, ["Message must be at least 10 characters"]⟩⟩
      .message ⟨"", true, ["Message must be at least 10 characters"]⟩ rfl (by decide)).2 with
    ⟨fs2, hget, hclass, hnodes, -⟩
  exact ⟨fs2, hget, hclass, hnodes⟩

/-! Section: Whole-form validation lemmas (claim C1) -/

theorem filter_ext {α : Type} (p q : α → Bool) :
    ∀ l : List α, (∀ x ∈ l, p x = q x) → l.filter p = l.filter q := by
  intro l h
  induction l with
  | nil => rfl
  | cons a as ih =>
    have ha := h a (List.mem_cons_self a as)
    simp only [List.filter_cons, ha, ih (fun x hx => h x (List.mem_cons_of_mem a hx))]

theorem all_ext {α : Type} (p q : α → Bool) :
    ∀ l : List α, (∀ x ∈ l, p x = q x) → l.all p = l.all q := by
  intro l h
  induction l with
  | nil => rfl
  | cons a as ih =>
    have ha := h a (List.mem_cons_self a as)
    simp only [List.all_cons, ha, ih (fun x hx => h x (List.mem_cons_of_mem a hx))]

theorem validateAll_trace : ∀ (l : List FieldName) (fm : FormModel),
    (validateAll fm l).2.2 = l.filter (fun fn => (getField fm fn).isSome) := by
  intro l
  induction l with
  | nil => intro fm; rfl
  | cons fn rest ih =>
    intro fm
    rcases hf : getField fm fn with _ | fs
    · simp only [validateAll, hf]
      rw [ih fm]
      simp [List.filter_cons, hf]
    · simp only [validateAll, hf]
      rw [ih (setField fm fn (validateField fn fs).2.1)]
      rw [filter_ext _ (fun fn2 => (getField fm fn2).isSome) rest
        (fun x _ => isSome_setField fm fn x _ (by rw [hf]; rfl))]
      simp [List.filter_cons, hf]

theorem validateAll_valid : ∀ (l : List FieldName) (fm : FormModel), l.Nodup →
    (validateAll fm l).2.1 = l.all (fun fn =>
      match getField fm fn with
      | none => true
      | some fs => (validateField fn fs).1) := by
  intro l
  induction l with
  | nil => intro fm _; rfl
  | cons fn rest ih =>
    intro fm hnd
    obtain ⟨hmem, hnd2⟩ := List.nodup_cons.mp hnd
    rcases hf : getField fm fn with _ | fs
    · simp only [validateAll, hf]
      rw [ih fm hnd2]
      simp [List.all_cons, hf]
    · simp only [validateAll, hf]
      rw [ih (setField fm fn (validateField fn fs).2.1) hnd2]
      rw [all_ext _ (fun fn2 =>
          match getField fm fn2 with
          | none => true
          | some fs2 => (validateField fn2 fs2).1) rest
        (fun x hx => by
          rw [getField_setField_ne fm fn x _ (fun he => hmem (he ▸ hx))])]
      simp [List.all_cons, hf]

theorem validateAll_getField : ∀ (l : List FieldName) (fm : FormModel) (fn : FieldName),
    l.Nodup →
    getField (validateAll fm l).1 fn =
      (if fn ∈ l then
        match getField fm fn with
        | none => none
        | some fs => some (validateField fn fs).2.1
      else getField fm fn) := by
  intro l
  induction l with
  | nil => intro fm fn _; simp [validateAll]
  | cons g rest ih =>
    intro fm fn hnd
    obtain ⟨hg, hnd2⟩ := List.nodup_cons.mp hnd
    by_cases hfg : fn = g
    · subst hfg
      rcases hf : getField fm fn with _ | fs
      · simp only [validateAll, hf]
        rw [ih fm fn hnd2]
        simp [hg, hf]
      · simp only [validateAll, hf]
        rw [ih (setField fm fn (validateField fn fs).2.1) fn hnd2]
        simp [hg, getField_setField_same, hf]
    · rcases hf : getField fm g with _ | fs
      · simp only [validateAll, hf]
        rw [ih fm fn hnd2]
        simp [List.mem_cons, hfg]
      · simp only [validateAll, hf]
        rw [ih (setField fm g (validateField g fs).2.1) fn hnd2]
        rw [getField_setField_ne fm g fn _ hfg]
        simp [List.mem_cons, hfg]

theorem validateField_value (fn : FieldName) (fs : FieldState) :
    ((validateField fn fs).2.1).value = fs.value := by
  simp only [validateField]
  split <;> rfl

theorem validateField_marked (fn : FieldName) (fs : FieldState) :
    ((validateField fn fs).1 = false ↔ ((validateField fn fs).2.1).hasErrorClass = true) := by
  simp only [validateField]
  split
  · simp [clearError]
  · simp [showError]

theorem mem_fieldOrder (fn : FieldName) : fn ∈ fieldOrder := by
  cases fn <;> decide

/-- Claim C1: `handleSubmit` always prevents the default; it calls
`validateField` on exactly the declared fields whose element is present,
in descriptor declaration order, with no form-level short-circuit; it
runs the submission-success sequence (banner inserted, reset scheduled)
iff every validated field reported valid; and when some field is invalid
it inserts no banner, schedules nothing, leaves every field value
unresetted, and leaves each present field marked iff that field's
validation failed. -/
theorem c1_handleSubmit (e : Event) (st : SimState) :
    (handleSubmit e st).1.defaultPrevented = true ∧
    (handleSubmit e st).2.2.1 = fieldOrder.filter (fun fn => (getField st.form fn).isSome) ∧
    ((handleSubmit e st).2.2.2 = true ↔
      ∀ fn fs, getField st.form fn = some fs → (validateField fn fs).1 = true) ∧
    ((handleSubmit e st).2.2.2 = true →
      (handleSubmit e st).2.1.banners = bannerSlideIn :: st.banners) ∧
    ((handleSubmit e st).2.2.2 = false →
      (handleSubmit e st).2.1.banners = st.banners ∧
      (handleSubmit e st).2.1.timers = st.timers ∧
      ∀ fn fs, getField st.form fn = some fs →
        getField (handleSubmit e st).2.1.form fn = some (validateField fn fs).2.1 ∧
        ((validateField fn fs).2.1).value = fs.value ∧
        ((validateField fn fs).1 = false ↔
          ((validateField fn fs).2.1).hasErrorClass = true)) := by
  have hva_tr := validateAll_trace fieldOrder st.form
  have hva_v := validateAll_valid fieldOrder st.form (by decide)
  have hva_g := fun fn => validateAll_getField fieldOrder st.form fn (by decide)
  have hvalid_iff : (validateAll st.form fieldOrder).2.1 = true ↔
      ∀ fn fs, getField st.form fn = some fs → (validateField fn fs).1 = true := by
    rw [hva_v, List.all_eq_true]
    constructor
    · intro h fn fs hf
      have h2 := h fn (mem_fieldOrder fn)
      rw [hf] at h2
      exact h2
    · intro h fn _
      rcases hf : getField st.form fn with _ | fs
      · rfl
      · exact h fn fs hf
  cases hok : (validateAll st.form fieldOrder).2.1 with
  | true =>
    have hred : handleSubmit e st =
        ({ defaultPrevented := true },
         submitForm { st with form := (validateAll st.form fieldOrder).1 },
         (validateAll st.form fieldOrder).2.2, true) := by
      simp [handleSubmit, hok]
    rw [hred]
    refine ⟨rfl, hva_tr, ?_, fun _ => rfl, ?_⟩
    · exact ⟨fun _ => hvalid_iff.mp hok, fun _ => rfl⟩
    · intro hcontr
      exact absurd hcontr (by simp)
  | false =>
    have hred : handleSubmit e st =
        ({ defaultPrevented := true },
         { st with form := (validateAll st.form fieldOrder).1 },
         (validateAll st.form fieldOrder).2.2, false) := by
      simp [handleSubmit, hok]
    rw [hred]
    refine ⟨rfl, hva_tr, ?_, ?_, ?_⟩
    · constructor
      · intro h
        exact absurd h (by simp)
      · intro h
        rw [hvalid_iff.mpr h] at hok
        exact absurd hok (by simp)
    · intro hcontr
      exact absurd hcontr (by simp)
    · intro _
      refine ⟨rfl, rfl, ?_⟩
      intro fn fs hf
      refine ⟨?_, validateField_value fn fs, validateField_marked fn fs⟩
      show getField (validateAll st.form fieldOrder).1 fn = some (validateField fn fs).2.1
      rw [hva_g fn, if_pos (mem_fieldOrder fn), hf]

/-- Witness for C1.  First, a form with a valid `email` field and an
invalid `message` field (no `name`/`phone` elements): the default is
prevented, exactly the two present fields are validated in order, no
banner is inserted, the invalid field ends up marked and the valid one
unmarked.  Second, a fully valid form: the success banner is inserted. -/
theorem c1_handleSubmit_witness :
    (handleSubmit ⟨false⟩
        ⟨⟨some ⟨"a@b.co", false, []⟩, none, none, some ⟨"short", false, []⟩⟩, [], [], 0⟩).1.defaultPrevented = true ∧
    (handleSubmit ⟨false⟩
        ⟨⟨some ⟨"a@b.co", false, []⟩, none, none, some ⟨"short", false, []⟩⟩, [], [], 0⟩).2.2.1 =
      [.email, .message] ∧
    (handleSubmit ⟨false⟩
        ⟨⟨some ⟨"a@b.co", false, []⟩, none, none, some ⟨"short", false, []⟩⟩, [], [], 0⟩).2.1.banners = [] ∧
    getField (handleSubmit ⟨false⟩
        ⟨⟨some ⟨"a@b.co", false, []⟩, none, none, some ⟨"short", false, []⟩⟩, [], [], 0⟩).2.1.form
      .message = some ⟨"short", true, ["Message must be at least 10 characters"]⟩ ∧
    getField (handleSubmit ⟨false⟩
        ⟨⟨some ⟨"a@b.co", false, []⟩, none, none, some ⟨"short", false, []⟩⟩, [], [], 0⟩).2.1.form
      .email = some ⟨"a@b.co", false, []⟩ ∧
    (handleSubmit ⟨false⟩
        ⟨⟨some ⟨"a@b.co", false, []⟩, some ⟨"Jo", false, []⟩, some ⟨"", false, []⟩,
          some ⟨"hello there world", false, []⟩⟩, [], [], 0⟩).2.1.banners = [bannerSlideIn] := by
  have h := c1_handleSubmit ⟨false⟩
    ⟨⟨some ⟨"a@b.co", false, []⟩, none, none, some ⟨"short", false, []⟩⟩, [], [], 0⟩
  obtain ⟨h1, h2, -, -, h5⟩ := h
  obtain ⟨hb, -, hfields⟩ := h5 (by decide)
  have hv := c1_handleSubmit ⟨false⟩
    ⟨⟨some ⟨"a@b.co", false, []⟩, some ⟨"Jo", false, []⟩, some ⟨"", false, []⟩,
      some ⟨"hello there world", false, []⟩⟩, [], [], 0⟩
  refine ⟨h1, by rw [h2]; decide, hb, ?_, ?_, hv.2.2.2.1 (by decide)⟩
  · have := (hfields .message ⟨"short", false, []⟩ rfl).1
    rw [this]
    decide
  · have := (hfields .email ⟨"a@b.co", false, []⟩ rfl).1
    rw [this]
    decide

/-! Section: The success sequence (claim C10) -/

theorem getField_resetForm (fm : FormModel) (fn : FieldName) :
    getField (resetForm fm) fn = (getField fm fn).map (fun fs => { fs with value := "" }) := by
  cases fn <;> rfl

/-- Claim C10: starting a submission-success sequence at simulated time 0
on a page with no banner and no pending timer, exactly one success banner
is inserted as the form's first child; strictly before 2000 ms nothing
else happens; at 2000 ms every present field's value is reset to the
empty default and the banner's removal transition (`slideOut`) begins; at
2300 ms the banner node is gone from the document. -/
theorem c10_success_sequence (fm : FormModel) :
    (submitForm ⟨fm, [], [], 0⟩).banners = [bannerSlideIn] ∧
    (∀ t, t < 2000 →
      (advance 4 t (submitForm ⟨fm, [], [], 0⟩)).form = fm ∧
      (advance 4 t (submitForm ⟨fm, [], [], 0⟩)).banners = [bannerSlideIn]) ∧
    (advance 4 2000 (submitForm ⟨fm, [], [], 0⟩)).form = resetForm fm ∧
    (advance 4 2000 (submitForm ⟨fm, [], [], 0⟩)).banners = [bannerSlideOut] ∧
    (∀ fn fs, getField fm fn = some fs →
      getField (advance 4 2000 (submitForm ⟨fm, [], [], 0⟩)).form fn =
        some { fs with value := "" }) ∧
    (advance 4 2300 (submitForm ⟨fm, [], [], 0⟩)).banners = [] ∧
    (advance 4 2300 (submitForm ⟨fm, [], [], 0⟩)).form = resetForm fm := by
  have h2000 : advance 4 2000 (submitForm ⟨fm, [], [], 0⟩) =
      ⟨resetForm fm, [bannerSlideOut], [(2300, TimerCb.removeBanner)], 2000⟩ := by
    simp [advance, submitForm, runCb, pickMin, bannerSlideIn, bannerSlideOut]
  have h2300 : advance 4 2300 (submitForm ⟨fm, [], [], 0⟩) =
      ⟨resetForm fm, [], [], 2300⟩ := by
    simp [advance, submitForm, runCb, pickMin, bannerSlideIn, bannerSlideOut]
  refine ⟨rfl, ?_, ?_, ?_, ?_, ?_, ?_⟩
  · intro t ht
    have hred : advance 4 t (submitForm ⟨fm, [], [], 0⟩) =
        ⟨fm, [bannerSlideIn], [(2000, TimerCb.resetAndSlideOut)], t⟩ := by
      simp only [advance, submitForm, pickMin]
      rw [if_neg (by omega)]
      simp
    rw [hred]
    exact ⟨rfl, rfl⟩
  · rw [h2000]
  · rw [h2000]
  · intro fn fs hf
    rw [h2000]
    show getField (resetForm fm) fn = some { fs with value := "" }
    rw [getField_resetForm, hf]
    rfl
  · rw [h2300]
  · rw [h2300]

/-- Witness for C10 on a concrete two-field form: after 2000 simulated
milliseconds the `message` field value has been reset to empty. -/
theorem c10_success_sequence_witness :
    (submitForm ⟨⟨some ⟨"a@b.co", false, []⟩, none, none, some ⟨"hello there world", false, []⟩⟩,
        [], [], 0⟩).banners = [bannerSlideIn] ∧
    getField (advance 4 2000 (submitForm
        ⟨⟨some ⟨"a@b.co", false, []⟩, none, none, some ⟨"hello there world", false, []⟩⟩,
         [], [], 0⟩)).form .message = some ⟨"", false, []⟩ ∧
    (advance 4 2300 (submitForm
        ⟨⟨some ⟨"a@b.co", false, []⟩, none, none, some ⟨"hello there world", false, []⟩⟩,
         [], [], 0⟩)).banners = [] ∧
    (advance 4 1000 (submitForm
        ⟨⟨some ⟨"a@b.co", false, []⟩, none, none, some ⟨"hello there world", false, []⟩⟩,
         [], [], 0⟩)).form =
      ⟨some ⟨"a@b.co", false, []⟩, none, none, some ⟨"hello there world", false, []⟩⟩ := by
  have h := c10_success_sequence
    ⟨some ⟨"a@b.co", false, []⟩, none, none, some ⟨"hello there world", false, []⟩⟩
  obtain ⟨h1, h2, -, -, h5, h6, -⟩ := h
  exact ⟨h1, h5 .message ⟨"hello there world", false, []⟩ rfl, h6, (h2 1000 (by omega)).1⟩

/-! Section: Page-level binding (claim C3) -/

/-- Claim C3 (evaluation at the failing input): in a document whose only
form carries the class `contact-form` and no `name` attribute, the
`contact-form` lookup alone would find that form and the named lookup
finds nothing; yet the constructed `contactForm` binding is inert
(`this.form` is `null`), because `new FormValidator(...)` always yields a
truthy object and so the `||` chain never tries the fallback selectors. -/
theorem c3_fallback_never_runs :
    (contactForm ⟨[⟨none, ["contact-form"]⟩]⟩).form = none ∧
    querySelectorForm ⟨[⟨none, ["contact-form"]⟩]⟩ "form.contact-form" =
      some ⟨none, ["contact-form"]⟩ ∧
    querySelectorForm ⟨[⟨none, ["contact-form"]⟩]⟩ "form[name=\"contact\"]" = none := by
  refine ⟨rfl, rfl, rfl⟩

end LeafNote
